import Mathlib

set_option maxHeartbeats 1000000
set_option maxRecDepth 100000

/-! Shallow embedding of the Seega rules engine (src/game.py) and the
session coordinator (src/server.py). Boards are 5x5 lists of cells,
coordinates are integers as in the Python source, and every operation is
a pure function from state to result-and-state. -/

inductive Cell : Type
| blank : Cell
| X : Cell
| O : Cell
deriving DecidableEq

/-- Mirror of the expression picking the other symbol:
`'O' if turn == 'X' else 'X'`. -/
def opp (c : Cell) : Cell := if c = Cell.X then Cell.O else Cell.X

abbrev Board := List (List Cell)

/-- Mirror of `SeegaGame.is_valid_position`. -/
def is_valid_position (x y : Int) : Bool :=
  decide (0 ≤ x ∧ x < 5 ∧ 0 ≤ y ∧ y < 5)

/-- Read `board[x][y]`; in the source every read is either guarded by
`is_valid_position` or performed with indices in `range(5)`, so the
default value is never observed in guarded use. -/
def getCell (b : Board) (x y : Int) : Cell :=
  (b.getD x.toNat []).getD y.toNat Cell.blank

/-- Write `board[x][y] = c`. -/
def setCell (b : Board) (x y : Int) (c : Cell) : Board :=
  b.set x.toNat ((b.getD x.toNat []).set y.toNat c)

structure Game where
  board : Board
  turn : Cell
  piecesX : Int
  piecesO : Int
  phase : Nat
  placements_this_turn : Nat
deriving DecidableEq

/-- Mirror of `SeegaGame.__init__`. -/
def initGame : Game :=
  ⟨List.replicate 5 (List.replicate 5 Cell.blank), Cell.X, 12, 12, 1, 0⟩

/-- Read `self.pieces[c]` (the dict is only ever indexed with X or O). -/
def piecesOf (g : Game) (c : Cell) : Int :=
  if c = Cell.X then g.piecesX else g.piecesO

/-- Write `self.pieces[c] = v`. -/
def setPieces (g : Game) (c : Cell) (v : Int) : Game :=
  if c = Cell.X then { g with piecesX := v } else { g with piecesO := v }

/-- Mirror of `SeegaGame.place_piece`. -/
def place_piece (g : Game) (x y : Int) : Bool × String × Game :=
  if g.phase ≠ 1 then (false, "Fase 1 encerrada. Use 'move x1 y1 x2 y2'.", g)
  else if is_valid_position x y = false ∨ getCell g.board x y ≠ Cell.blank ∨ (x = 2 ∧ y = 2) then
    (false, "Posição inválida.", g)
  else if piecesOf g g.turn ≤ 0 then (false, "Você já colocou todas as suas peças.", g)
  else
    let g1 : Game :=
      { setPieces g g.turn (piecesOf g g.turn - 1) with
          board := setCell g.board x y g.turn,
          placements_this_turn := g.placements_this_turn + 1 }
    let g2 : Game :=
      if g1.placements_this_turn = 2 then
        { g1 with turn := opp g1.turn, placements_this_turn := 0 }
      else g1
    let g3 : Game := if g2.piecesX = 0 ∧ g2.piecesO = 0 then { g2 with phase := 2 } else g2
    (true, "Peça colocada com sucesso.", g3)

/-- The four orthogonal directions, in the source's iteration order. -/
def dirsList : List (Int × Int) := [(-1, 0), (1, 0), (0, -1), (0, 1)]

/-- One iteration of the capture loop for direction `d` around the
landing cell (x, y): the accumulator carries (board, captured flag,
enemy piece count). -/
def capStep (t : Cell) (x y : Int) (acc : Board × Bool × Int) (d : Int × Int) :
    Board × Bool × Int :=
  if is_valid_position (x + d.1) (y + d.2) = true ∧
     getCell acc.1 (x + d.1) (y + d.2) = opp t then
    if is_valid_position (x + 2 * d.1) (y + 2 * d.2) = true ∧
       getCell acc.1 (x + 2 * d.1) (y + 2 * d.2) = t then
      (setCell acc.1 (x + d.1) (y + d.2) Cell.blank, true, acc.2.2 - 1)
    else acc
  else acc

/-- Mirror of `SeegaGame.check_capture`: fold over the four orthogonal
directions in source order. -/
def check_capture (g : Game) (x y : Int) : Game × Bool :=
  let r := dirsList.foldl (capStep g.turn x y) (g.board, false, piecesOf g (opp g.turn))
  (setPieces { g with board := r.1 } (opp g.turn) r.2.2, r.2.1)

/-- The custodial-capture condition of one direction, read off a fixed
board: the adjacent cell holds an enemy piece and the cell beyond it is
in bounds and holds the capturing side's piece. -/
def condDir (b : Board) (t : Cell) (x y dx dy : Int) : Prop :=
  is_valid_position (x + dx) (y + dy) = true ∧
  getCell b (x + dx) (y + dy) = opp t ∧
  is_valid_position (x + 2 * dx) (y + 2 * dy) = true ∧
  getCell b (x + 2 * dx) (y + 2 * dy) = t

instance (b : Board) (t : Cell) (x y dx dy : Int) : Decidable (condDir b t x y dx dy) := by
  unfold condDir
  infer_instance

/-- Uniformity test of one line, mirror of
`len(set(row)) == 1 and row[0] in \x7b'X', 'O'\x7d`. -/
def rowOwner : List Cell → Option Cell
| [] => none
| h :: t =>
  if (t.all (fun c => decide (c = h))) = true ∧ (h = Cell.X ∨ h = Cell.O) then some h else none

/-- Column `j` of the board, mirror of
`[self.board[row][col] for row in range(5)]`. -/
def colList (b : Board) (j : Nat) : List Cell :=
  (List.range 5).map (fun i => (b.getD i []).getD j Cell.blank)

/-- Mirror of `sum(row.count(c) for row in self.board)`. -/
def countPieces (b : Board) (c : Cell) : Nat :=
  (b.map (fun row => row.count c)).sum

/-- Mirror of `SeegaGame.check_win`. -/
def check_win (g : Game) : Option Cell :=
  if g.phase ≠ 2 then none
  else
    let cx := countPieces g.board Cell.X
    let co := countPieces g.board Cell.O
    if cx = 0 then some Cell.O
    else if co = 0 then some Cell.X
    else
      match g.board.findSome? rowOwner with
      | some w => some w
      | none => (List.range 5).findSome? (fun j => rowOwner (colList g.board j))

/-- Printable symbol of a cell. -/
def cellStr : Cell → String
| Cell.blank => " "
| Cell.X => "X"
| Cell.O => "O"

/-- Mirror of `SeegaGame.move_piece`. -/
def move_piece (g : Game) (x1 y1 x2 y2 : Int) : Bool × String × Game :=
  if g.phase ≠ 2 then (false, "Ainda estamos na fase de colocação.", g)
  else if ¬ (is_valid_position x1 y1 = true ∧ is_valid_position x2 y2 = true) then
    (false, "Posição inválida.", g)
  else if getCell g.board x1 y1 ≠ g.turn then
    (false, "Você só pode mover suas próprias peças.", g)
  else if getCell g.board x2 y2 ≠ Cell.blank then
    (false, "A posição de destino está ocupada.", g)
  else if (x1 - x2).natAbs + (y1 - y2).natAbs ≠ 1 then
    (false, "Movimento inválido. Só é permitido mover uma casa na horizontal ou vertical.", g)
  else
    let g1 : Game := { g with board := setCell (setCell g.board x2 y2 g.turn) x1 y1 Cell.blank }
    let r := check_capture g1 x2 y2
    match check_win r.1 with
    | some w => (true, "Jogo encerrado! " ++ cellStr w ++ " venceu!", r.1)
    | none =>
      if r.2 = false then
        (true, "Peça movida com sucesso.", { r.1 with turn := opp r.1.turn })
      else
        (true, "Captura realizada! Você pode jogar novamente.", r.1)

/-- The intermediate state of a successful move, after the piece has
been slid (destination written, then source cleared) and before capture
resolution. -/
def movedGame (g : Game) (x1 y1 x2 y2 : Int) : Game :=
  { g with board := setCell (setCell g.board x2 y2 g.turn) x1 y1 Cell.blank }

/-! The session coordinator (src/server.py). The `messages` dict is an
association list with Python-dict update semantics. -/

structure Server where
  game : Game
  players : List Int
  messages : List (Int × List String)
deriving DecidableEq

/-- Mirror of `SeegaRPCServer.__init__`. -/
def initServer : Server := ⟨initGame, [], [(0, []), (1, [])]⟩

/-- Dict lookup `m.get(k)`. -/
def dget (m : List (Int × List String)) (k : Int) : Option (List String) :=
  match m with
  | [] => none
  | (k', v) :: t => if k' = k then some v else dget t k

/-- Dict update-or-insert `m[k] = v`. -/
def dset (m : List (Int × List String)) (k : Int) (v : List String) :
    List (Int × List String) :=
  match m with
  | [] => [(k, v)]
  | (k', v') :: t => if k' = k then (k', v) :: t else (k', v') :: dset t k v

/-- Mirror of `SeegaRPCServer._broadcast`: append one message to every
mailbox in the map. -/
def bcastOne (m : List (Int × List String)) (s : String) : List (Int × List String) :=
  m.map (fun e => (e.1, e.2 ++ [s]))

/-- Mirror of `SeegaRPCServer.register_player`. -/
def register_player (s : Server) : Int × Server :=
  if s.players.length < 2 then
    let pid : Int := s.players.length
    (pid, { s with players := s.players ++ [pid], messages := dset s.messages pid [] })
  else (-1, s)

/-- Mirror of `SeegaRPCServer.get_symbol`. -/
def get_symbol (pid : Int) : Cell := if pid = 0 then Cell.X else Cell.O

/-- Wire string for a placement, `f"MOVE \x7bx\x7d \x7by\x7d \x7bsymbol\x7d"`. -/
def placeMsg (x y : Int) (c : Cell) : String :=
  "MOVE " ++ toString x ++ " " ++ toString y ++ " " ++ cellStr c

/-- Wire string for a movement. -/
def moveMsg4 (x1 y1 x2 y2 : Int) (c : Cell) : String :=
  "MOVE " ++ toString x1 ++ " " ++ toString y1 ++ " " ++ toString x2 ++ " " ++
    toString y2 ++ " " ++ cellStr c

/-- Wire string for a turn update, `f"TURN \x7bturn\x7d \x7bphase\x7d"`. -/
def turnMsg (g : Game) : String :=
  "TURN " ++ cellStr g.turn ++ " " ++ toString g.phase

/-- Wire string for the end of the game. -/
def gameOverMsg (w : Cell) : String := "GAME_OVER " ++ cellStr w ++ " venceu!"

/-- Wire string for a capture, `f"CAPTURE \x7bi\x7d \x7bj\x7d"`. -/
def capMsg (i j : Nat) : String :=
  "CAPTURE " ++ toString i ++ " " ++ toString j

/-- Wire string for a chat line. -/
def chatMsg (c : Cell) (text : String) : String :=
  "CHAT " ++ cellStr c ++ ": " ++ text

/-- Wire string for a resignation. -/
def resignMsg (w : Cell) : String :=
  "GAME_OVER Jogador " ++ cellStr w ++ " venceu por desistência."

/-- Broadcast each message of the list, in order. -/
def broadcastAll (s : Server) (msgs : List String) : Server :=
  { s with messages := msgs.foldl bcastOne s.messages }

/-- Mirror of `SeegaRPCServer.place_piece`. -/
def server_place (s : Server) (x y : Int) (pid : Int) : List String × Server :=
  if s.game.turn ≠ get_symbol pid then (["Não é sua vez."], s)
  else
    let r := place_piece s.game x y
    let s1 : Server := { s with game := r.2.2 }
    if r.1 = false then ([r.2.1], s1)
    else
      let base := [placeMsg x y (get_symbol pid), turnMsg s1.game]
      let msgs := match check_win s1.game with
        | some w => base ++ [gameOverMsg w]
        | none => base
      (msgs, broadcastAll s1 msgs)

/-- The before/after board diff of `SeegaRPCServer.move_piece`: one
CAPTURE message for each cell, scanned in row-major order over
`range(5) x range(5)`, that held a piece before, is empty after, and is
not the move's source cell `(x1, y1)`. -/
def capturesList (before after : Board) (x1 y1 : Int) : List String :=
  ((List.range 5).map (fun i =>
    (List.range 5).filterMap (fun j =>
      if (before.getD i []).getD j Cell.blank ≠ Cell.blank ∧
         (after.getD i []).getD j Cell.blank = Cell.blank ∧
         ((i : Int) ≠ x1 ∨ (j : Int) ≠ y1)
      then some (capMsg i j) else none))).flatten

/-- Mirror of `SeegaRPCServer.move_piece`. -/
def server_move (s : Server) (x1 y1 x2 y2 : Int) (pid : Int) : List String × Server :=
  if s.game.turn ≠ get_symbol pid then (["Não é sua vez."], s)
  else
    let before := s.game.board
    let r := move_piece s.game x1 y1 x2 y2
    let s1 : Server := { s with game := r.2.2 }
    if r.1 = false then ([r.2.1], s1)
    else
      let base := [moveMsg4 x1 y1 x2 y2 (get_symbol pid), turnMsg s1.game] ++
        capturesList before s1.game.board x1 y1
      let msgs := match check_win s1.game with
        | some w => base ++ [gameOverMsg w]
        | none => base
      (msgs, broadcastAll s1 msgs)

/-- Mirror of `SeegaRPCServer.chat` (state effect). -/
def server_chat (s : Server) (pid : Int) (text : String) : Server :=
  { s with messages := bcastOne s.messages (chatMsg (get_symbol pid) text) }

/-- Mirror of `SeegaRPCServer.resign` (state effect). -/
def server_resign (s : Server) (pid : Int) : Server :=
  { s with messages := bcastOne s.messages (resignMsg (get_symbol (1 - pid))) }

/-- Mirror of `SeegaRPCServer.poll_messages`: return a copy of the
pending list (empty for an unknown id) and store an empty list under the
id, inserting the key when absent. -/
def poll_messages (s : Server) (pid : Int) : List String × Server :=
  ((dget s.messages pid).getD [], { s with messages := dset s.messages pid [] })

/-- One coordinator operation, for reasoning about operation sequences. -/
inductive Op : Type
| register : Op
| place : Int → Int → Int → Op
| move : Int → Int → Int → Int → Int → Op
| chat : Int → String → Op
| resign : Int → Op
deriving DecidableEq

/-- State effect of one operation. -/
def stepOp (s : Server) (op : Op) : Server :=
  match op with
  | Op.register => (register_player s).2
  | Op.place x y pid => (server_place s x y pid).2
  | Op.move x1 y1 x2 y2 pid => (server_move s x1 y1 x2 y2 pid).2
  | Op.chat pid t => server_chat s pid t
  | Op.resign pid => server_resign s pid

/-- Run a sequence of operations from a state. -/
def execOps (s : Server) (ops : List Op) : Server := ops.foldl stepOp s

/-- One engine placement, threading the count of successful placements. -/
def placeStepFold (acc : Game × Nat) (p : Int × Int) : Game × Nat :=
  let r := place_piece acc.1 p.1 p.2
  (r.2.2, acc.2 + (if r.1 = true then 1 else 0))

/-- Run a sequence of engine placements, counting the successful ones. -/
def placeTrace (g : Game) (ps : List (Int × Int)) : Game × Nat :=
  ps.foldl placeStepFold (g, 0)

/-- The non-board engine state tracked across placements. -/
structure PlaceSt where
  px : Int
  po : Int
  t : Cell
  p : Nat
  ph : Nat
deriving DecidableEq

/-- The non-board engine state after `k` successful placements, obtained
by replaying the update rule of `place_piece`. -/
def placeSpec : Nat → PlaceSt
| 0 => ⟨12, 12, Cell.X, 0, 1⟩
| k + 1 =>
  let s := placeSpec k
  let px' := if s.t = Cell.X then s.px - 1 else s.px
  let po' := if s.t = Cell.X then s.po else s.po - 1
  let t' := if s.p + 1 = 2 then opp s.t else s.t
  let p' := if s.p + 1 = 2 then 0 else s.p + 1
  let ph' := if px' = 0 ∧ po' = 0 then 2 else s.ph
  ⟨px', po', t', p', ph'⟩

/-- The game agrees with a tracked placement state. -/
def placeInv (g : Game) (s : PlaceSt) : Prop :=
  g.piecesX = s.px ∧ g.piecesO = s.po ∧ g.turn = s.t ∧
  g.placements_this_turn = s.p ∧ g.phase = s.ph

/-- A well-formed 5x5 board, as built and maintained by the source. -/
def boardWF (b : Board) : Prop := b.length = 5 ∧ ∀ row ∈ b, row.length = 5

/-- The spec's notion of a winning line: a uniform, non-empty, full row
or full column of 5 owned by `w`. -/
def hasLine (b : Board) (w : Cell) : Prop :=
  (w = Cell.X ∨ w = Cell.O) ∧
  ((∃ row ∈ b, row = List.replicate 5 w) ∨
   (∃ j, j < 5 ∧ colList b j = List.replicate 5 w))

/-! Concrete states and operation sequences used as test inputs. -/

/-- Movement-phase state with an X piece at (0,0) and an O piece at (4,4). -/
def diffBoard : Board :=
  [[Cell.X, Cell.blank, Cell.blank, Cell.blank, Cell.blank],
   List.replicate 5 Cell.blank,
   List.replicate 5 Cell.blank,
   List.replicate 5 Cell.blank,
   [Cell.blank, Cell.blank, Cell.blank, Cell.blank, Cell.O]]

def diffGame : Game := ⟨diffBoard, Cell.X, 1, 1, 2, 0⟩

def diffServer : Server := ⟨diffGame, [0, 1], [(0, []), (1, [])]⟩

/-- Movement-phase state where X can complete row 0 by a non-capturing move. -/
def lineGame : Game :=
  ⟨[[Cell.X, Cell.X, Cell.X, Cell.X, Cell.blank],
    [Cell.blank, Cell.blank, Cell.blank, Cell.blank, Cell.X],
    List.replicate 5 Cell.blank,
    List.replicate 5 Cell.blank,
    [Cell.O, Cell.O, Cell.blank, Cell.blank, Cell.blank]],
   Cell.X, 5, 2, 2, 0⟩

/-- Movement-phase state with an empty board. -/
def emptyMoveGame : Game :=
  ⟨List.replicate 5 (List.replicate 5 Cell.blank), Cell.X, 0, 0, 2, 0⟩

/-- Twenty-three placements that fill every non-center cell but (4,4),
giving row 0 entirely to X; player 0 places for X, player 1 for O, two
placements each in alternation. -/
def fillPlaceOps : List Op :=
  [Op.place 0 0 0, Op.place 0 1 0, Op.place 2 3 1, Op.place 2 4 1,
   Op.place 0 2 0, Op.place 0 3 0, Op.place 3 0 1, Op.place 3 1 1,
   Op.place 0 4 0, Op.place 1 0 0, Op.place 3 2 1, Op.place 3 3 1,
   Op.place 1 1 0, Op.place 1 2 0, Op.place 3 4 1, Op.place 4 0 1,
   Op.place 1 3 0, Op.place 1 4 0, Op.place 4 1 1, Op.place 4 2 1,
   Op.place 2 0 0, Op.place 2 1 0, Op.place 4 3 1]

def almostFullServer : Server :=
  execOps initServer ([Op.register, Op.register] ++ fillPlaceOps)

/-- A chat broadcast followed by a registration. -/
def chatThenRegServer : Server := execOps initServer [Op.chat 0 "oi", Op.register]

/-- Movement-phase state where X moving from (1,2) to (0,2) flanks the O
piece at (0,1) against the X piece at (0,0). -/
def sandwichBoard : Board :=
  [[Cell.X, Cell.O, Cell.blank, Cell.blank, Cell.blank],
   [Cell.blank, Cell.blank, Cell.X, Cell.blank, Cell.blank],
   List.replicate 5 Cell.blank,
   List.replicate 5 Cell.blank,
   [Cell.blank, Cell.blank, Cell.blank, Cell.blank, Cell.O]]

def sandwichGame : Game := ⟨sandwichBoard, Cell.X, 3, 2, 2, 0⟩

def sandwichServer : Server := ⟨sandwichGame, [0, 1], [(0, []), (1, [])]⟩

/-- All twenty-four legal placement cells in row-major order. -/
def allPlacementCells : List (Int × Int) :=
  [(0, 0), (0, 1), (0, 2), (0, 3), (0, 4), (1, 0), (1, 1), (1, 2), (1, 3), (1, 4),
   (2, 0), (2, 1), (2, 3), (2, 4), (3, 0), (3, 1), (3, 2), (3, 3), (3, 4),
   (4, 0), (4, 1), (4, 2), (4, 3), (4, 4)]

/-! Helper lemmas. -/

lemma place_piece_fail_eq (g : Game) (x y : Int) :
    (place_piece g x y).1 = false → (place_piece g x y).2.2 = g := by
  unfold place_piece
  split_ifs <;> simp

lemma move_piece_fail_eq (g : Game) (x1 y1 x2 y2 : Int) :
    (move_piece g x1 y1 x2 y2).1 = false → (move_piece g x1 y1 x2 y2).2.2 = g := by
  unfold move_piece
  split_ifs <;> try simp
  intro h
  exfalso
  revert h
  split
  · simp
  · split_ifs <;> simp

/-! Claim C7. -/

/-- C7 (counterexample): in the Movement phase with an empty board, the
move from the in-bounds cell (0,0) to the in-bounds cell (0,2) has
Manhattan distance 2, yet it fails with the NotOwner message rather than
the IllegalDistance message, because ownership of the source cell is
checked before the distance. -/
theorem C7_counterexample :
    emptyMoveGame.phase = 2 ∧
    is_valid_position 0 0 = true ∧ is_valid_position 0 2 = true ∧
    (0 - 0 : Int).natAbs + (0 - 2 : Int).natAbs ≠ 1 ∧
    move_piece emptyMoveGame 0 0 0 2 =
      (false, "Você só pode mover suas próprias peças.", emptyMoveGame) ∧
    "Você só pode mover suas próprias peças." ≠
      "Movimento inválido. Só é permitido mover uma casa na horizontal ou vertical." := by
  decide

/-- C7 (amended): in the Movement phase, for in-bounds source and
destination where the source holds the acting side's piece and the
destination is empty, a Manhattan distance other than 1 always fails
with the IllegalDistance message and leaves the state unchanged. -/
theorem C7_illegal_distance (g : Game) (x1 y1 x2 y2 : Int)
    (hph : g.phase = 2)
    (h1 : is_valid_position x1 y1 = true)
    (h2 : is_valid_position x2 y2 = true)
    (hsrc : getCell g.board x1 y1 = g.turn)
    (hdst : getCell g.board x2 y2 = Cell.blank)
    (hd : (x1 - x2).natAbs + (y1 - y2).natAbs ≠ 1) :
    move_piece g x1 y1 x2 y2 =
      (false, "Movimento inválido. Só é permitido mover uma casa na horizontal ou vertical.", g) := by
  unfold move_piece
  simp [hph, h1, h2, hsrc, hdst, hd]

/-- C7 (witness): a concrete IllegalDistance rejection, moving X from
(1,4) to (3,4). -/
theorem C7_illegal_distance_witness :
    lineGame.phase = 2 ∧
    move_piece lineGame 1 4 3 4 =
      (false, "Movimento inválido. Só é permitido mover uma casa na horizontal ou vertical.", lineGame) :=
  ⟨by decide,
   C7_illegal_distance lineGame 1 4 3 4 (by decide) (by decide) (by decide)
     (by decide) (by decide) (by decide)⟩

/-! Claim C8. -/

/-- C8: every place or move call that returns a failure result leaves the
whole engine state (board, turn, piece allotments, phase, placement
counter) exactly as it was before the call. -/
theorem C8_failure_leaves_state_unchanged (g : Game) (x y x1 y1 x2 y2 : Int) :
    ((place_piece g x y).1 = false → (place_piece g x y).2.2 = g) ∧
    ((move_piece g x1 y1 x2 y2).1 = false → (move_piece g x1 y1 x2 y2).2.2 = g) :=
  ⟨place_piece_fail_eq g x y, move_piece_fail_eq g x1 y1 x2 y2⟩

/-- C8 (witness): placing on the forbidden center cell fails and leaves
the fresh state unchanged; moving during the Placement phase fails and
leaves the fresh state unchanged. -/
theorem C8_failure_witness :
    (place_piece initGame 2 2).1 = false ∧ (place_piece initGame 2 2).2.2 = initGame ∧
    (move_piece initGame 0 0 0 1).1 = false ∧ (move_piece initGame 0 0 0 1).2.2 = initGame :=
  ⟨by decide, (C8_failure_leaves_state_unchanged initGame 2 2 0 0 0 1).1 (by decide),
   by decide, (C8_failure_leaves_state_unchanged initGame 2 2 0 0 0 1).2 (by decide)⟩

/-! Claim C3. -/

lemma setPieces_turn (g : Game) (c : Cell) (v : Int) : (setPieces g c v).turn = g.turn := by
  unfold setPieces
  split <;> rfl

lemma check_capture_turn (g : Game) (x y : Int) : (check_capture g x y).1.turn = g.turn := by
  unfold check_capture
  simp [setPieces_turn]

/-- C3 (counterexample): in `lineGame` the move of X from (1,4) to (0,4)
is legal and captures nothing, yet the turn does not pass to O: the move
completes a full X row, the win check short-circuits, and the mover
keeps the turn. -/
theorem C3_counterexample :
    lineGame.phase = 2 ∧
    (move_piece lineGame 1 4 0 4).1 = true ∧
    (check_capture
      { lineGame with board := setCell (setCell lineGame.board 0 4 lineGame.turn) 1 4 Cell.blank }
      0 4).2 = false ∧
    lineGame.turn = Cell.X ∧
    (move_piece lineGame 1 4 0 4).2.2.turn = Cell.X := by
  decide

lemma move_piece_success_guards (g : Game) (x1 y1 x2 y2 : Int)
    (h : (move_piece g x1 y1 x2 y2).1 = true) :
    g.phase = 2 ∧ is_valid_position x1 y1 = true ∧ is_valid_position x2 y2 = true ∧
    getCell g.board x1 y1 = g.turn ∧ getCell g.board x2 y2 = Cell.blank ∧
    (x1 - x2).natAbs + (y1 - y2).natAbs = 1 := by
  unfold move_piece at h
  split_ifs at h with h1 h2 h3 h4 h5
  push_neg at h1 h3 h4 h5
  exact ⟨h1, h2.1, h2.2, h3, h4, h5⟩

lemma move_piece_success_eq (g : Game) (x1 y1 x2 y2 : Int)
    (h1 : g.phase = 2) (h2a : is_valid_position x1 y1 = true)
    (h2b : is_valid_position x2 y2 = true)
    (h3 : getCell g.board x1 y1 = g.turn) (h4 : getCell g.board x2 y2 = Cell.blank)
    (h5 : (x1 - x2).natAbs + (y1 - y2).natAbs = 1) :
    move_piece g x1 y1 x2 y2 =
      (match check_win (check_capture (movedGame g x1 y1 x2 y2) x2 y2).1 with
       | some w => (true, "Jogo encerrado! " ++ cellStr w ++ " venceu!",
           (check_capture (movedGame g x1 y1 x2 y2) x2 y2).1)
       | none =>
         if (check_capture (movedGame g x1 y1 x2 y2) x2 y2).2 = false then
           (true, "Peça movida com sucesso.",
             { (check_capture (movedGame g x1 y1 x2 y2) x2 y2).1 with
                 turn := opp (check_capture (movedGame g x1 y1 x2 y2) x2 y2).1.turn })
         else
           (true, "Captura realizada! Você pode jogar novamente.",
             (check_capture (movedGame g x1 y1 x2 y2) x2 y2).1)) := by
  unfold move_piece movedGame
  simp [h1, h2a, h2b, h3, h4, h5]

/-- C3 (amended): for every legal move during the Movement phase, a
capturing move never advances the turn; a non-capturing move advances
the turn to the other side unless the win check detects a winner, in
which case the turn is left unchanged. -/
theorem C3_turn_policy (g : Game) (x1 y1 x2 y2 : Int) (r : Game × Bool)
    (hr : r = check_capture (movedGame g x1 y1 x2 y2) x2 y2)
    (hsucc : (move_piece g x1 y1 x2 y2).1 = true) :
    (r.2 = true → (move_piece g x1 y1 x2 y2).2.2.turn = g.turn) ∧
    (r.2 = false → check_win r.1 = none → (move_piece g x1 y1 x2 y2).2.2.turn = opp g.turn) ∧
    (r.2 = false → check_win r.1 ≠ none → (move_piece g x1 y1 x2 y2).2.2.turn = g.turn) := by
  obtain ⟨h1, h2a, h2b, h3, h4, h5⟩ := move_piece_success_guards g x1 y1 x2 y2 hsucc
  subst hr
  rw [move_piece_success_eq g x1 y1 x2 y2 h1 h2a h2b h3 h4 h5]
  have hmt : (movedGame g x1 y1 x2 y2).turn = g.turn := rfl
  refine ⟨fun hcap => ?_, fun hcap hwin => ?_, fun hcap hwin => ?_⟩
  · rcases hcw : check_win (check_capture (movedGame g x1 y1 x2 y2) x2 y2).1 with _ | w
    · simp [hcw, hcap, check_capture_turn, hmt]
    · simp [hcw, check_capture_turn, hmt]
  · simp [hwin, hcap, check_capture_turn, hmt]
  · rcases hcw : check_win (check_capture (movedGame g x1 y1 x2 y2) x2 y2).1 with _ | w
    · exact absurd hcw hwin
    · simp [hcw, check_capture_turn, hmt]
/-- C3 (witness): the sandwiching move of X from (1,2) to (0,2) captures
and retains the turn; the non-capturing, non-winning move of X from
(0,0) to (0,1) in `diffGame` passes the turn to O. -/
theorem C3_turn_policy_witness :
    (move_piece sandwichGame 1 2 0 2).2.2.turn = sandwichGame.turn ∧
    (move_piece diffGame 0 0 0 1).2.2.turn = opp diffGame.turn :=
  ⟨(C3_turn_policy sandwichGame 1 2 0 2 _ rfl (by decide)).1 (by decide),
   (C3_turn_policy diffGame 0 0 0 1 _ rfl (by decide)).2.1 (by decide) (by decide)⟩

/-! Claim C2. -/

/-- C2 (counterexample): from a fresh session, after both registrations
and 23 successful placements that give X all of row 0, the 24th
successful placement (O at (4,4)) produces a game-over notification in
addition to the placement and turn-update notifications: the placement
itself moves the phase to Movement, and the win check then sees X's full
row. -/
theorem C2_counterexample :
    almostFullServer.game.phase = 1 ∧
    (place_piece almostFullServer.game 4 4).1 = true ∧
    (server_place almostFullServer 4 4 1).1 =
      ["MOVE 4 4 O", "TURN X 2", "GAME_OVER X venceu!"] := by
  decide

/-- C2 (amended): for every successful placePiece call that leaves the
game in the Placement phase, the notifications produced are exactly a
placement notification then a turn-update notification, and no game-over
notification is produced; only the placement that completes both
allotments (and so moves the phase to Movement) can additionally produce
a game-over notification. -/
theorem C2_placement_notifications (s : Server) (x y : Int) (pid : Int)
    (hturn : s.game.turn = get_symbol pid)
    (hsucc : (place_piece s.game x y).1 = true)
    (hph : (place_piece s.game x y).2.2.phase = 1) :
    (server_place s x y pid).1 =
      [placeMsg x y (get_symbol pid), turnMsg (place_piece s.game x y).2.2] := by
  have hcw : check_win (place_piece s.game x y).2.2 = none := by
    unfold check_win
    simp [hph]
  unfold server_place
  simp [hturn, hsucc, hcw]

/-- C2 (witness): the very first placement of a fresh session produces
exactly the placement and turn-update notifications. -/
theorem C2_placement_notifications_witness :
    (server_place initServer 0 0 0).1 =
      [placeMsg 0 0 (get_symbol 0), turnMsg (place_piece initServer.game 0 0).2.2] :=
  C2_placement_notifications initServer 0 0 0 (by decide) (by decide) (by decide)

/-! Dictionary lemmas for the mailbox map. -/

lemma dget_dset (m : List (Int × List String)) (k k' : Int) (v : List String) :
    dget (dset m k v) k' = if k = k' then some v else dget m k' := by
  induction m with
  | nil =>
    by_cases hk' : k = k' <;> simp [dget, dset, hk']
  | cons hd tl ih =>
    obtain ⟨a, b⟩ := hd
    by_cases hak : a = k
    · subst hak
      by_cases hk' : a = k' <;> simp [dget, dset, hk']
    · by_cases hk' : a = k'
      · subst hk'
        simp [dget, dset, hak, ih]
        rw [if_neg (show ¬ k = a by omega)]
      · simp [dget, dset, hak, hk', ih]

lemma dget_bcastOne (m : List (Int × List String)) (s : String) (k : Int) :
    dget (bcastOne m s) k = (dget m k).map (fun l => l ++ [s]) := by
  induction m with
  | nil => simp [dget, bcastOne]
  | cons hd tl ih =>
    obtain ⟨a, b⟩ := hd
    simp only [bcastOne] at ih ⊢
    by_cases hak : a = k <;> simp [dget, hak, ih]

lemma dget_foldl_bcastOne (ms : List String) (m : List (Int × List String)) (k : Int)
    (l : List String) (h : dget m k = some l) :
    dget (ms.foldl bcastOne m) k = some (l ++ ms) := by
  induction ms generalizing m l with
  | nil => simpa using h
  | cons s t ih =>
    have hstep : dget (bcastOne m s) k = some (l ++ [s]) := by
      simp [dget_bcastOne, h]
    simpa using ih (bcastOne m s) (l ++ [s]) hstep

lemma foldl_bcast_sym (ms : List String) (m : List (Int × List String))
    (h : dget m 0 = dget m 1) :
    dget (ms.foldl bcastOne m) 0 = dget (ms.foldl bcastOne m) 1 := by
  induction ms generalizing m with
  | nil => simpa using h
  | cons s t ih =>
    have : dget (bcastOne m s) 0 = dget (bcastOne m s) 1 := by
      simp [dget_bcastOne, h]
    simpa using ih (bcastOne m s) this

/-! Claim C10. -/

/-- C10: polling with a participant id absent from the mailbox map
returns the empty sequence, inserts a fresh empty mailbox under that id,
and every subsequent broadcast is appended to that mailbox as well, so
the map is not limited to the two registered participants. -/
theorem C10_poll_unknown_id (s : Server) (pid : Int) (ms : List String)
    (h : dget s.messages pid = none) :
    (poll_messages s pid).1 = [] ∧
    dget (poll_messages s pid).2.messages pid = some [] ∧
    dget (ms.foldl bcastOne (poll_messages s pid).2.messages) pid = some ms := by
  unfold poll_messages
  refine ⟨by simp [h], by simp [dget_dset], ?_⟩
  simpa using dget_foldl_bcastOne ms (dset s.messages pid []) pid [] (by simp [dget_dset])

/-- C10 (witness): the id 5 was never returned by register, yet polling
it on a fresh session yields the empty sequence, creates its mailbox,
and a broadcast afterwards lands in it. -/
theorem C10_poll_unknown_id_witness :
    dget initServer.messages 5 = none ∧
    (poll_messages initServer 5).1 = [] ∧
    dget (poll_messages initServer 5).2.messages 5 = some [] ∧
    dget (["CHAT X: oi"].foldl bcastOne (poll_messages initServer 5).2.messages) 5 =
      some ["CHAT X: oi"] :=
  ⟨by decide, (C10_poll_unknown_id initServer 5 ["CHAT X: oi"] (by decide)).1,
   (C10_poll_unknown_id initServer 5 ["CHAT X: oi"] (by decide)).2.1,
   (C10_poll_unknown_id initServer 5 ["CHAT X: oi"] (by decide)).2.2⟩

/-! Claim C4. -/

lemma stepOp_mailbox_sym (s : Server) (op : Op) (hop : op ≠ Op.register)
    (h : dget s.messages 0 = dget s.messages 1) :
    dget (stepOp s op).messages 0 = dget (stepOp s op).messages 1 := by
  cases op with
  | register => exact absurd rfl hop
  | place x y pid =>
    simp only [stepOp, server_place]
    split_ifs <;> simp [broadcastAll, h, foldl_bcast_sym _ s.messages h]
  | move x1 y1 x2 y2 pid =>
    simp only [stepOp, server_move]
    split_ifs <;> simp [broadcastAll, h, foldl_bcast_sym _ s.messages h]
  | chat pid t =>
    unfold stepOp server_chat
    simp [dget_bcastOne, h]
  | resign pid =>
    unfold stepOp server_resign
    simp [dget_bcastOne, h]

lemma exec_no_register_sym (ops : List Op) (hops : ∀ op ∈ ops, op ≠ Op.register)
    (s : Server) (h : dget s.messages 0 = dget s.messages 1) :
    dget (execOps s ops).messages 0 = dget (execOps s ops).messages 1 := by
  induction ops generalizing s with
  | nil => simpa [execOps] using h
  | cons op t ih =>
    have h' := stepOp_mailbox_sym s op (hops op (by simp)) h
    simpa [execOps] using ih (fun o ho => hops o (by simp [ho])) (stepOp s op) h'

lemma exec_registers_empty (ops : List Op) (hops : ∀ op ∈ ops, op = Op.register)
    (s : Server) (h0 : dget s.messages 0 = some []) (h1 : dget s.messages 1 = some []) :
    dget (execOps s ops).messages 0 = some [] ∧
    dget (execOps s ops).messages 1 = some [] := by
  induction ops generalizing s with
  | nil => exact ⟨by simpa [execOps] using h0, by simpa [execOps] using h1⟩
  | cons op t ih =>
    have hop := hops op (by simp)
    subst hop
    have hs : stepOp s Op.register = (register_player s).2 := rfl
    have h0' : dget (stepOp s Op.register).messages 0 = some [] := by
      rw [hs]
      unfold register_player
      split_ifs <;> simp [dget_dset, h0]
    have h1' : dget (stepOp s Op.register).messages 1 = some [] := by
      rw [hs]
      unfold register_player
      split_ifs <;> simp [dget_dset, h1]
    simpa [execOps] using ih (fun o ho => hops o (by simp [ho])) (stepOp s Op.register) h0' h1'

/-- C4 (counterexample): chat with participant 0 before any
registration, then register: the registering call resets mailbox 0, so
draining the two mailboxes at the same point afterwards yields []
for participant 0 and the chat notification for participant 1. -/
theorem C4_counterexample :
    (poll_messages chatThenRegServer 0).1 ≠
      (poll_messages (poll_messages chatThenRegServer 0).2 1).1 := by
  decide

/-- C4 (amended): for every finite sequence of coordinator operations in
which all register calls come before the other operations, executed
sequentially from a fresh session, the two participants' mailboxes hold
identical notification sequences, and draining both at the same point
yields identical sequences in identical order. -/
theorem C4_mailbox_symmetry (regs rest : List Op)
    (hregs : ∀ op ∈ regs, op = Op.register)
    (hrest : ∀ op ∈ rest, op ≠ Op.register) :
    dget (execOps initServer (regs ++ rest)).messages 0 =
      dget (execOps initServer (regs ++ rest)).messages 1 ∧
    (poll_messages (execOps initServer (regs ++ rest)) 0).1 =
      (poll_messages (poll_messages (execOps initServer (regs ++ rest)) 0).2 1).1 := by
  have hsplit : execOps initServer (regs ++ rest) = execOps (execOps initServer regs) rest := by
    simp [execOps, List.foldl_append]
  have hreg := exec_registers_empty regs hregs initServer (by decide) (by decide)
  have hsym : dget (execOps initServer (regs ++ rest)).messages 0 =
      dget (execOps initServer (regs ++ rest)).messages 1 := by
    rw [hsplit]
    exact exec_no_register_sym rest hrest _ (hreg.1.trans hreg.2.symm)
  refine ⟨hsym, ?_⟩
  unfold poll_messages
  simp [dget_dset, hsym]

/-- C4 (witness): registrations first, then a placement and a chat:
draining both mailboxes at the end yields the same sequence. -/
theorem C4_mailbox_symmetry_witness :
    (poll_messages (execOps initServer
        ([Op.register, Op.register] ++ [Op.place 0 0 0, Op.chat 1 "oi"])) 0).1 =
      (poll_messages (poll_messages (execOps initServer
        ([Op.register, Op.register] ++ [Op.place 0 0 0, Op.chat 1 "oi"])) 0).2 1).1 :=
  (C4_mailbox_symmetry [Op.register, Op.register] [Op.place 0 0 0, Op.chat 1 "oi"]
    (by decide) (by decide)).2

/-! Claim C5. -/

lemma rowOwner_eq_some (row : List Cell) (hlen : row.length = 5) (w : Cell) :
    rowOwner row = some w ↔ (w = Cell.X ∨ w = Cell.O) ∧ row = List.replicate 5 w := by
  rcases row with _ | ⟨h, t⟩
  · simp at hlen
  · constructor
    · intro hr
      simp only [rowOwner] at hr
      split_ifs at hr with hc
      obtain ⟨hall, hXO⟩ := hc
      obtain rfl : h = w := by injection hr
      refine ⟨hXO, ?_⟩
      rw [List.eq_replicate_iff]
      refine ⟨hlen, fun b hb => ?_⟩
      rcases List.mem_cons.mp hb with hbh | hbt
      · exact hbh
      · simpa using (List.all_eq_true.mp hall) b hbt
    · rintro ⟨hXO, hrep⟩
      rw [List.replicate_succ] at hrep
      obtain ⟨rfl, ht⟩ : h = w ∧ t = List.replicate 4 w := by
        constructor <;> injection hrep
      simp only [rowOwner]
      rw [if_pos]
      refine ⟨?_, hXO⟩
      rw [List.all_eq_true]
      intro b hb
      rw [ht] at hb
      simpa using List.eq_of_mem_replicate hb

lemma colList_length (b : Board) (j : Nat) : (colList b j).length = 5 := by
  simp [colList]

/-- C5: win detection returns no winner outside the Movement phase; in
the Movement phase the elimination check comes first (zero X pieces
gives O the win, zero O pieces with X pieces remaining gives X the win),
and when neither side is eliminated the result is a winner owning some
uniform non-empty full row or column of 5, and there is no winner
exactly when no such line exists. -/
theorem C5_win_detection (g : Game) (hwf : boardWF g.board) :
    (g.phase ≠ 2 → check_win g = none) ∧
    (g.phase = 2 → countPieces g.board Cell.X = 0 → check_win g = some Cell.O) ∧
    (g.phase = 2 → countPieces g.board Cell.O = 0 → countPieces g.board Cell.X ≠ 0 →
      check_win g = some Cell.X) ∧
    (g.phase = 2 → countPieces g.board Cell.X ≠ 0 → countPieces g.board Cell.O ≠ 0 →
      ((∀ w, check_win g = some w → hasLine g.board w) ∧
       (check_win g = none ↔ ∀ w, ¬ hasLine g.board w))) := by
  obtain ⟨hblen, hrows⟩ := hwf
  refine ⟨fun h => by simp [check_win, h], fun hph hx => by simp [check_win, hph, hx],
    fun hph ho hx => by simp [check_win, hph, hx, ho], fun hph hx ho => ?_⟩
  have hcw : check_win g =
      (match g.board.findSome? rowOwner with
       | some w => some w
       | none => (List.range 5).findSome? (fun j => rowOwner (colList g.board j))) := by
    unfold check_win
    simp [hph, hx, ho]
  constructor
  · intro w hw
    rw [hcw] at hw
    rcases hrow : g.board.findSome? rowOwner with _ | w'
    · rw [hrow] at hw
      simp only at hw
      obtain ⟨j, hj, hcol⟩ := List.exists_of_findSome?_eq_some hw
      have := (rowOwner_eq_some _ (colList_length g.board j) w).mp hcol
      exact ⟨this.1, Or.inr ⟨j, List.mem_range.mp hj, this.2⟩⟩
    · rw [hrow] at hw
      simp only [Option.some.injEq] at hw
      obtain ⟨row, hrmem, hrsome⟩ := List.exists_of_findSome?_eq_some hrow
      rw [hw] at hrsome
      have := (rowOwner_eq_some row (hrows row hrmem) w).mp hrsome
      exact ⟨this.1, Or.inl ⟨row, hrmem, this.2⟩⟩
  · rw [hcw]
    constructor
    · intro hnone w hline
      rcases hrow : g.board.findSome? rowOwner with _ | w'
      · rw [hrow] at hnone
        simp only at hnone
        obtain ⟨hXO, hrl | ⟨j, hj, hcol⟩⟩ := hline
        · obtain ⟨row, hrmem, hrrep⟩ := hrl
          have : rowOwner row = some w :=
            (rowOwner_eq_some row (hrows row hrmem) w).mpr ⟨hXO, hrrep⟩
          have := List.findSome?_eq_none_iff.mp hrow row hrmem
          simp_all
        · have : rowOwner (colList g.board j) = some w :=
            (rowOwner_eq_some _ (colList_length g.board j) w).mpr ⟨hXO, hcol⟩
          have := List.findSome?_eq_none_iff.mp hnone j (List.mem_range.mpr hj)
          simp_all
      · rw [hrow] at hnone
        cases hnone
    · intro hnoline
      have hrow : g.board.findSome? rowOwner = none := by
        rw [List.findSome?_eq_none_iff]
        intro row hrmem
        rcases hro : rowOwner row with _ | w
        · rfl
        · have := (rowOwner_eq_some row (hrows row hrmem) w).mp hro
          exact absurd ⟨this.1, Or.inl ⟨row, hrmem, this.2⟩⟩ (hnoline w)
      rw [hrow]
      simp only
      rw [List.findSome?_eq_none_iff]
      intro j hj
      rcases hro : rowOwner (colList g.board j) with _ | w
      · rfl
      · have := (rowOwner_eq_some _ (colList_length g.board j) w).mp hro
        exact absurd ⟨this.1, Or.inr ⟨j, List.mem_range.mp hj, this.2⟩⟩ (hnoline w)

/-- C5 (witness): on `lineGame`'s board after X completes row 0 by hand,
win detection names X, elimination applies on an O-free variant, and the
function is silent in phase 1. -/
theorem C5_win_detection_witness :
    boardWF lineGame.board ∧ lineGame.phase = 2 ∧
    countPieces lineGame.board Cell.X ≠ 0 ∧ countPieces lineGame.board Cell.O ≠ 0 ∧
    (∀ w, check_win lineGame = some w → hasLine lineGame.board w) ∧
    (check_win lineGame = none ↔ ∀ w, ¬ hasLine lineGame.board w) :=
  ⟨⟨by decide, by decide⟩, by decide, by decide, by decide,
   (C5_win_detection lineGame ⟨by decide, by decide⟩).2.2.2 (by decide) (by decide) (by decide)⟩

/-! Claim C9. -/

lemma place_piece_spec_step (g : Game) (x y : Int) (k : Nat)
    (hinv : placeInv g (placeSpec k)) (hsucc : (place_piece g x y).1 = true) :
    placeInv (place_piece g x y).2.2 (placeSpec (k + 1)) := by
  obtain ⟨hpx, hpo, ht, hp, hph⟩ := hinv
  have hph1 : g.phase = 1 := by
    by_contra hne
    unfold place_piece at hsucc
    rw [if_pos hne] at hsucc
    simp at hsucc
  unfold place_piece at hsucc ⊢
  rw [if_neg (by simp [hph1] : ¬ g.phase ≠ 1)] at hsucc ⊢
  by_cases h2 : is_valid_position x y = false ∨ getCell g.board x y ≠ Cell.blank ∨ (x = 2 ∧ y = 2)
  · rw [if_pos h2] at hsucc
    simp at hsucc
  rw [if_neg h2] at hsucc ⊢
  by_cases h3 : piecesOf g g.turn ≤ 0
  · rw [if_pos h3] at hsucc
    simp at hsucc
  rw [if_neg h3]
  by_cases hX : (placeSpec k).t = Cell.X <;>
    by_cases hflip : (placeSpec k).p + 1 = 2 <;>
      simp [placeInv, placeSpec, setPieces, piecesOf, hpx, hpo, ht, hp, hph, hX, hflip] <;>
        split_ifs <;> simp_all

lemma placeTrace_fold_inv (ps : List (Int × Int)) (g : Game) (k c : Nat)
    (hinv : placeInv g (placeSpec k)) :
    ∃ j : Nat, (ps.foldl placeStepFold (g, c)).2 = c + j ∧
      placeInv (ps.foldl placeStepFold (g, c)).1 (placeSpec (k + j)) := by
  induction ps generalizing g k c with
  | nil => exact ⟨0, by simp, by simpa using hinv⟩
  | cons p t ih =>
    simp only [List.foldl_cons]
    cases hres : (place_piece g p.1 p.2).1
    · have hgeq := place_piece_fail_eq g p.1 p.2 hres
      have hfold : placeStepFold (g, c) p = (g, c) := by
        simp [placeStepFold, hres, hgeq]
      rw [hfold]
      exact ih g k c hinv
    · have hstep := place_piece_spec_step g p.1 p.2 k hinv hres
      have hfold : placeStepFold (g, c) p = ((place_piece g p.1 p.2).2.2, c + 1) := by
        simp [placeStepFold, hres]
      rw [hfold]
      obtain ⟨j, hcount, hinv'⟩ := ih _ (k + 1) (c + 1) hstep
      refine ⟨j + 1, by omega, ?_⟩
      have harith : k + 1 + j = k + (j + 1) := by omega
      rwa [harith] at hinv'

/-- C9: starting from the initial state, any sequence of engine
placement calls containing exactly 24 successful placements ends with
the phase at Movement, both allotments at 0, and the turn back at X —
the value dictated by the flip-after-every-2-placements rule alone, so
the phase transition itself does not change the current side. -/
theorem C9_placement_completion (ps : List (Int × Int))
    (h24 : (placeTrace initGame ps).2 = 24) :
    (placeTrace initGame ps).1.phase = 2 ∧
    (placeTrace initGame ps).1.piecesX = 0 ∧
    (placeTrace initGame ps).1.piecesO = 0 ∧
    (placeTrace initGame ps).1.turn = Cell.X := by
  have h0 : placeInv initGame (placeSpec 0) := ⟨rfl, rfl, rfl, rfl, rfl⟩
  obtain ⟨j, hcount, hinv⟩ := placeTrace_fold_inv ps initGame 0 0 h0
  unfold placeTrace at h24 ⊢
  have hj : j = 24 := by omega
  subst hj
  have hspec : placeSpec (0 + 24) = ⟨0, 0, Cell.X, 0, 2⟩ := by decide
  rw [hspec] at hinv
  obtain ⟨ha, hb, hc, hd, he⟩ := hinv
  exact ⟨he, ha, hb, hc⟩

/-- C9 (witness): placing on all 24 non-center cells in row-major order
gives 24 successes, ending in the Movement phase with empty allotments
and the turn at X. -/
theorem C9_placement_completion_witness :
    (placeTrace initGame allPlacementCells).2 = 24 ∧
    (placeTrace initGame allPlacementCells).1.phase = 2 ∧
    (placeTrace initGame allPlacementCells).1.piecesX = 0 ∧
    (placeTrace initGame allPlacementCells).1.piecesO = 0 ∧
    (placeTrace initGame allPlacementCells).1.turn = Cell.X :=
  ⟨by decide, C9_placement_completion allPlacementCells (by decide)⟩

/-! Claim C6. -/

lemma getD_set_ne_idx {α : Type} (l : List α) (i j : Nat) (a d : α) (h : i ≠ j) :
    (l.set i a).getD j d = l.getD j d := by
  simp [List.getD_eq_getElem?_getD, List.getElem?_set_ne h]

lemma getD_set_self_idx {α : Type} (l : List α) (i : Nat) (a d : α) (h : i < l.length) :
    (l.set i a).getD i d = a := by
  simp [List.getD_eq_getElem?_getD, List.getElem?_set, h]

lemma valid_bounds (x y : Int) (h : is_valid_position x y = true) :
    0 ≤ x ∧ x < 5 ∧ 0 ≤ y ∧ y < 5 := by
  simpa [is_valid_position] using h

lemma getCell_setCell_ne (b : Board) (c : Cell) (x y x' y' : Int)
    (hv : is_valid_position x y = true) (hv' : is_valid_position x' y' = true)
    (hne : (x, y) ≠ (x', y')) :
    getCell (setCell b x' y' c) x y = getCell b x y := by
  obtain ⟨hx0, hx5, hy0, hy5⟩ := valid_bounds x y hv
  obtain ⟨hx0', hx5', hy0', hy5'⟩ := valid_bounds x' y' hv'
  unfold getCell setCell
  by_cases hxx : x = x'
  · subst hxx
    have hyy : y ≠ y' := fun h => hne (by rw [h])
    by_cases hlen : x.toNat < b.length
    · rw [getD_set_self_idx _ _ _ _ hlen]
      have hyn : y'.toNat ≠ y.toNat := by omega
      exact getD_set_ne_idx _ _ _ _ _ hyn
    · have hge : b.length ≤ x.toNat := by omega
      have hge' : (b.set x.toNat ((b.getD x.toNat []).set y'.toNat c)).length ≤ x.toNat := by
        rw [List.length_set]
        exact hge
      rw [List.getD_eq_default _ _ hge', List.getD_eq_default _ _ hge]
  · have hxn : x'.toNat ≠ x.toNat := by omega
    rw [getD_set_ne_idx _ _ _ _ _ hxn]

lemma getCell_setCell_self (b : Board) (x y : Int) (c : Cell)
    (h : getCell b x y ≠ Cell.blank) :
    getCell (setCell b x y c) x y = c := by
  unfold getCell setCell at *
  by_cases hlen : x.toNat < b.length
  · by_cases hrow : y.toNat < (b.getD x.toNat []).length
    · rw [getD_set_self_idx _ _ _ _ hlen]
      exact getD_set_self_idx _ _ _ _ hrow
    · have hdef : (b.getD x.toNat []).getD y.toNat Cell.blank = Cell.blank :=
        List.getD_eq_default _ _ (by omega)
      exact absurd hdef h
  · have hrow0 : b.getD x.toNat [] = [] := List.getD_eq_default _ _ (by omega)
    exact absurd (by rw [hrow0]; rfl) h

lemma opp_ne_blank (t : Cell) : opp t ≠ Cell.blank := by
  unfold opp
  split <;> simp

lemma setPieces_board (g : Game) (c : Cell) (v : Int) : (setPieces g c v).board = g.board := by
  unfold setPieces
  split <;> rfl

lemma adj_inj (x y : Int) (d e : Int × Int)
    (h : (x + d.1, y + d.2) = (x + e.1, y + e.2)) : d = e := by
  obtain ⟨d1, d2⟩ := d
  obtain ⟨e1, e2⟩ := e
  simp only [Prod.mk.injEq] at h ⊢
  omega

lemma beyond_ne_adj (x y : Int) (d e : Int × Int) (hd : d ∈ dirsList) (he : e ∈ dirsList) :
    (x + 2 * e.1, y + 2 * e.2) ≠ (x + d.1, y + d.2) := by
  fin_cases hd <;> fin_cases he <;> simp [Prod.ext_iff] <;> omega

lemma capFold_inv (t : Cell) (x y : Int) (b0 : Board) (todo done : List (Int × Int))
    (hsplit : done ++ todo = dirsList)
    (acc : Board × Bool × Int)
    (hflag : acc.2.1 = done.any (fun d => decide (condDir b0 t x y d.1 d.2)))
    (hcap : ∀ d ∈ done, condDir b0 t x y d.1 d.2 →
        getCell acc.1 (x + d.1) (y + d.2) = Cell.blank)
    (hpres : ∀ p1 p2 : Int, is_valid_position p1 p2 = true →
        (∀ d ∈ done, ¬ (condDir b0 t x y d.1 d.2 ∧ (p1, p2) = (x + d.1, y + d.2))) →
        getCell acc.1 p1 p2 = getCell b0 p1 p2) :
    (todo.foldl (capStep t x y) acc).2.1 =
        dirsList.any (fun d => decide (condDir b0 t x y d.1 d.2)) ∧
    (∀ d ∈ dirsList, condDir b0 t x y d.1 d.2 →
        getCell (todo.foldl (capStep t x y) acc).1 (x + d.1) (y + d.2) = Cell.blank) ∧
    (∀ p1 p2 : Int, is_valid_position p1 p2 = true →
        (∀ d ∈ dirsList, ¬ (condDir b0 t x y d.1 d.2 ∧ (p1, p2) = (x + d.1, y + d.2))) →
        getCell (todo.foldl (capStep t x y) acc).1 p1 p2 = getCell b0 p1 p2) := by
  induction todo generalizing done acc with
  | nil =>
    rw [List.append_nil] at hsplit
    subst hsplit
    exact ⟨hflag, hcap, hpres⟩
  | cons e todo' ih =>
    have he_mem : e ∈ dirsList := by
      rw [← hsplit]
      simp
    have hdone_sub : ∀ d ∈ done, d ∈ dirsList := by
      intro d hd
      rw [← hsplit]
      exact List.mem_append_left _ hd
    have he_not_done : e ∉ done := by
      have hnd : dirsList.Nodup := by decide
      rw [← hsplit] at hnd
      rcases List.nodup_append.mp hnd with ⟨_, _, hdisj⟩
      exact fun hin => hdisj hin (by simp)
    have hadj_eq : is_valid_position (x + e.1) (y + e.2) = true →
        getCell acc.1 (x + e.1) (y + e.2) = getCell b0 (x + e.1) (y + e.2) := by
      intro hv
      apply hpres _ _ hv
      rintro d hd ⟨_, hpe⟩
      exact he_not_done (adj_inj x y e d hpe ▸ hd)
    have hbey_eq : is_valid_position (x + 2 * e.1) (y + 2 * e.2) = true →
        getCell acc.1 (x + 2 * e.1) (y + 2 * e.2) = getCell b0 (x + 2 * e.1) (y + 2 * e.2) := by
      intro hv
      apply hpres _ _ hv
      rintro d hd ⟨_, hpe⟩
      exact beyond_ne_adj x y d e (hdone_sub d hd) he_mem hpe
    have hsplit' : (done ++ [e]) ++ todo' = dirsList := by
      rw [List.append_assoc]
      simpa using hsplit
    by_cases hce : condDir b0 t x y e.1 e.2
    · have hcomp := hce
      obtain ⟨hv1, hg1, hv2, hg2⟩ := hcomp
      have hstep : capStep t x y acc e =
          (setCell acc.1 (x + e.1) (y + e.2) Cell.blank, true, acc.2.2 - 1) := by
        unfold capStep
        rw [if_pos ⟨hv1, (hadj_eq hv1).trans hg1⟩, if_pos ⟨hv2, (hbey_eq hv2).trans hg2⟩]
      rw [List.foldl_cons, hstep]
      apply ih (done ++ [e]) hsplit'
      · simp [List.any_append, hce, hv1, hg1, hv2, hg2, condDir]
      · intro d hd hcd
        rcases List.mem_append.mp hd with hdl | hdr
        · have hdne : d ≠ e := fun h => he_not_done (h ▸ hdl)
          have hadjne : (x + d.1, y + d.2) ≠ (x + e.1, y + e.2) :=
            fun h => hdne (adj_inj x y d e h)
          rw [getCell_setCell_ne _ _ _ _ _ _ hcd.1 hv1 hadjne]
          exact hcap d hdl hcd
        · have hde : d = e := by simpa using hdr
          subst hde
          apply getCell_setCell_self
          rw [(hadj_eq hv1).trans hg1]
          exact opp_ne_blank t
      · intro p1 p2 hv havoid
        have hne_pe : (p1, p2) ≠ (x + e.1, y + e.2) := by
          intro heq
          exact havoid e (by simp) ⟨⟨hv1, hg1, hv2, hg2⟩, heq⟩
        rw [getCell_setCell_ne _ _ _ _ _ _ hv hv1 hne_pe]
        apply hpres _ _ hv
        intro d hd
        exact havoid d (List.mem_append_left _ hd)
    · have hstep : capStep t x y acc e = acc := by
        unfold capStep
        split_ifs with h1 h2
        · exact absurd ⟨h1.1, (hadj_eq h1.1).symm.trans h1.2,
            h2.1, (hbey_eq h2.1).symm.trans h2.2⟩ hce
        · rfl
        · rfl
      rw [List.foldl_cons, hstep]
      apply ih (done ++ [e]) hsplit' acc
      · simp [List.any_append, hce, hflag]
      · intro d hd hcd
        rcases List.mem_append.mp hd with hdl | hdr
        · exact hcap d hdl hcd
        · have hde : d = e := by simpa using hdr
          subst hde
          exact absurd hcd hce
      · intro p1 p2 hv havoid
        apply hpres _ _ hv
        intro d hd
        exact havoid d (List.mem_append_left _ hd)

/-- C6: capture resolution around the landing cell (x, y) checks the
four orthogonal directions independently against the board as it was
when the move landed: the captured flag is true exactly when some
direction satisfies the custodial condition; every direction satisfying
it has its adjacent enemy piece removed; and a direction not satisfying
it leaves its adjacent cell untouched. -/
theorem C6_capture_resolution (g : Game) (x y : Int) :
    ((check_capture g x y).2 = true ↔
      ∃ d ∈ dirsList, condDir g.board g.turn x y d.1 d.2) ∧
    (∀ d ∈ dirsList, condDir g.board g.turn x y d.1 d.2 →
      getCell (check_capture g x y).1.board (x + d.1) (y + d.2) = Cell.blank) ∧
    (∀ d ∈ dirsList, is_valid_position (x + d.1) (y + d.2) = true →
      ¬ condDir g.board g.turn x y d.1 d.2 →
      getCell (check_capture g x y).1.board (x + d.1) (y + d.2) =
        getCell g.board (x + d.1) (y + d.2)) := by
  obtain ⟨hflag, hcap, hpres⟩ := capFold_inv g.turn x y g.board dirsList [] (by simp)
    (g.board, false, piecesOf g (opp g.turn)) (by simp) (by simp)
    (fun p1 p2 _ _ => rfl)
  have hboard : (check_capture g x y).1.board =
      (dirsList.foldl (capStep g.turn x y) (g.board, false, piecesOf g (opp g.turn))).1 := by
    unfold check_capture
    rw [setPieces_board]
  have hflag2 : (check_capture g x y).2 =
      (dirsList.foldl (capStep g.turn x y) (g.board, false, piecesOf g (opp g.turn))).2.1 :=
    rfl
  refine ⟨?_, ?_, ?_⟩
  · rw [hflag2, hflag, List.any_eq_true]
    constructor <;> rintro ⟨d, hd, h⟩ <;> exact ⟨d, hd, by simpa using h⟩
  · intro d hd hcd
    rw [hboard]
    exact hcap d hd hcd
  · intro d hd hv hncd
    rw [hboard]
    apply hpres _ _ hv
    rintro d' hd' ⟨hcd', heq⟩
    exact hncd ((adj_inj x y d d' heq) ▸ hcd')

/-- C6 (witness): after X's move lands at (0,2) in `sandwichGame`, the
left direction satisfies the custodial condition, the captured flag is
true, the O piece at (0,1) is removed, and the non-satisfied downward
direction leaves its adjacent cell untouched. -/
theorem C6_capture_resolution_witness :
    condDir (movedGame sandwichGame 1 2 0 2).board (movedGame sandwichGame 1 2 0 2).turn
      0 2 0 (-1) ∧
    (check_capture (movedGame sandwichGame 1 2 0 2) 0 2).2 = true ∧
    getCell (check_capture (movedGame sandwichGame 1 2 0 2) 0 2).1.board (0 + 0) (2 + -1) =
      Cell.blank ∧
    getCell (check_capture (movedGame sandwichGame 1 2 0 2) 0 2).1.board (0 + 1) (2 + 0) =
      getCell (movedGame sandwichGame 1 2 0 2).board (0 + 1) (2 + 0) :=
  ⟨by decide,
   (C6_capture_resolution (movedGame sandwichGame 1 2 0 2) 0 2).1.mpr
     ⟨(0, -1), by decide, by decide⟩,
   (C6_capture_resolution (movedGame sandwichGame 1 2 0 2) 0 2).2.1 (0, -1)
     (by decide) (by decide),
   (C6_capture_resolution (movedGame sandwichGame 1 2 0 2) 0 2).2.2 (1, 0)
     (by decide) (by decide) (by decide)⟩

/-! Claim C1. -/

lemma data_head_append (p r : String) (c : Char) (hp : p.data.head? = some c) :
    (p ++ r).data.head? = some c := by
  rw [String.data_append, List.head?_append, hp]
  rfl

lemma capMsg_head (i j : Nat) : (capMsg i j).data.head? = some 'C' := by
  unfold capMsg
  apply data_head_append
  apply data_head_append
  apply data_head_append
  rfl

lemma moveMsg4_head (x1 y1 x2 y2 : Int) (c : Cell) :
    (moveMsg4 x1 y1 x2 y2 c).data.head? = some 'M' := by
  unfold moveMsg4
  repeat apply data_head_append
  rfl

lemma turnMsg_head (g : Game) : (turnMsg g).data.head? = some 'T' := by
  unfold turnMsg
  repeat apply data_head_append
  rfl

lemma gameOverMsg_head (w : Cell) : (gameOverMsg w).data.head? = some 'G' := by
  unfold gameOverMsg
  repeat apply data_head_append
  rfl

lemma ne_of_head (s1 s2 : String) (c1 c2 : Char) (h1 : s1.data.head? = some c1)
    (h2 : s2.data.head? = some c2) (hne : c1 ≠ c2) : s1 ≠ s2 := by
  intro h
  subst h
  rw [h1] at h2
  exact hne (by injection h2)

lemma capMsg_inj : ∀ i ∈ List.range 5, ∀ j ∈ List.range 5, ∀ i' ∈ List.range 5,
    ∀ j' ∈ List.range 5, capMsg i' j' = capMsg i j → i' = i ∧ j' = j := by
  decide

lemma mem_capturesList (before after : Board) (x1 y1 : Int) (i j : Nat)
    (hi : i < 5) (hj : j < 5) :
    capMsg i j ∈ capturesList before after x1 y1 ↔
      ((before.getD i []).getD j Cell.blank ≠ Cell.blank ∧
       (after.getD i []).getD j Cell.blank = Cell.blank ∧
       ((i : Int) ≠ x1 ∨ (j : Int) ≠ y1)) := by
  unfold capturesList
  rw [List.mem_flatten]
  constructor
  · rintro ⟨l, hl, hml⟩
    rw [List.mem_map] at hl
    obtain ⟨i', hi', rfl⟩ := hl
    rw [List.mem_filterMap] at hml
    obtain ⟨j', hj', hsome⟩ := hml
    by_cases hc : (before.getD i' []).getD j' Cell.blank ≠ Cell.blank ∧
        (after.getD i' []).getD j' Cell.blank = Cell.blank ∧
        ((i' : Int) ≠ x1 ∨ (j' : Int) ≠ y1)
    · rw [if_pos hc] at hsome
      have heq : capMsg i' j' = capMsg i j := by injection hsome
      obtain ⟨rfl, rfl⟩ := capMsg_inj i (List.mem_range.mpr hi) j (List.mem_range.mpr hj)
        i' hi' j' hj' heq
      exact hc
    · rw [if_neg hc] at hsome
      cases hsome
  · intro hc
    refine ⟨(List.range 5).filterMap (fun j' =>
      if (before.getD i []).getD j' Cell.blank ≠ Cell.blank ∧
         (after.getD i []).getD j' Cell.blank = Cell.blank ∧
         ((i : Int) ≠ x1 ∨ (j' : Int) ≠ y1)
      then some (capMsg i j') else none), ?_, ?_⟩
    · rw [List.mem_map]
      exact ⟨i, List.mem_range.mpr hi, rfl⟩
    · rw [List.mem_filterMap]
      exact ⟨j, List.mem_range.mpr hj, by rw [if_pos hc]⟩

/-- C1 (counterexample): in `diffServer` the legal move of X from (0,0)
to (0,1) captures nothing, so the source cell (0,0) held a piece before,
is empty after, and differs from the destination (0,1); yet no CAPTURE
notification for (0,0) is produced, because the diff excludes the source
cell, not the destination. -/
theorem C1_counterexample :
    diffServer.game.turn = get_symbol 0 ∧
    (move_piece diffServer.game 0 0 0 1).1 = true ∧
    getCell diffServer.game.board 0 0 ≠ Cell.blank ∧
    getCell (server_move diffServer 0 0 0 1 0).2.game.board 0 0 = Cell.blank ∧
    ((0 : Int), (0 : Int)) ≠ ((0 : Int), (1 : Int)) ∧
    capMsg 0 0 ∉ (server_move diffServer 0 0 0 1 0).1 := by
  decide

/-- C1 (amended): for every successful movePiece call, the coordinator
emits a capture notification for exactly those cells that held a piece
in the before-snapshot and are empty in the after-snapshot, excluding
only the source cell of the move: every such cell produces a CAPTURE
notification and no other cell does. -/
theorem C1_capture_notifications (s : Server) (x1 y1 x2 y2 : Int) (pid : Int)
    (hturn : s.game.turn = get_symbol pid)
    (hsucc : (move_piece s.game x1 y1 x2 y2).1 = true) :
    ∀ i j : Nat, i < 5 → j < 5 →
      (capMsg i j ∈ (server_move s x1 y1 x2 y2 pid).1 ↔
        ((s.game.board.getD i []).getD j Cell.blank ≠ Cell.blank ∧
         (((move_piece s.game x1 y1 x2 y2).2.2.board).getD i []).getD j Cell.blank =
           Cell.blank ∧
         ((i : Int) ≠ x1 ∨ (j : Int) ≠ y1))) := by
  intro i j hi hj
  have hm1 : capMsg i j ≠ moveMsg4 x1 y1 x2 y2 (get_symbol pid) :=
    ne_of_head _ _ 'C' 'M' (capMsg_head i j) (moveMsg4_head x1 y1 x2 y2 _) (by decide)
  have hm2 : capMsg i j ≠ turnMsg (move_piece s.game x1 y1 x2 y2).2.2 :=
    ne_of_head _ _ 'C' 'T' (capMsg_head i j) (turnMsg_head _) (by decide)
  have hmem := mem_capturesList s.game.board (move_piece s.game x1 y1 x2 y2).2.2.board
    x1 y1 i j hi hj
  unfold server_move
  rw [if_neg (by simp [hturn])]
  simp only
  rw [if_neg (by simp [hsucc])]
  rcases hcw : check_win (move_piece s.game x1 y1 x2 y2).2.2 with _ | w
  · simp only [hcw]
    simp only [List.mem_append, List.mem_cons, List.not_mem_nil, or_false]
    simp [hm1, hm2]
    simpa using hmem
  · have hm3 : capMsg i j ≠ gameOverMsg w :=
      ne_of_head _ _ 'C' 'G' (capMsg_head i j) (gameOverMsg_head w) (by decide)
    simp only [hcw]
    simp only [List.mem_append, List.mem_cons, List.not_mem_nil, or_false]
    simp [hm1, hm2, hm3]
    simpa using hmem

/-- C1 (witness): in `sandwichServer`, X's move from (1,2) to (0,2)
captures the O piece at (0,1); the membership equivalence applied at
(0,1) is discharged on this concrete input. -/
theorem C1_capture_notifications_witness :
    sandwichServer.game.turn = get_symbol 0 ∧
    (move_piece sandwichServer.game 1 2 0 2).1 = true ∧
    (capMsg 0 1 ∈ (server_move sandwichServer 1 2 0 2 0).1 ↔
      ((sandwichServer.game.board.getD 0 []).getD 1 Cell.blank ≠ Cell.blank ∧
       (((move_piece sandwichServer.game 1 2 0 2).2.2.board).getD 0 []).getD 1 Cell.blank =
         Cell.blank ∧
       ((0 : Int) ≠ 1 ∨ (1 : Int) ≠ 2))) :=
  ⟨by decide, by decide,
   C1_capture_notifications sandwichServer 1 2 0 2 0 (by decide) (by decide) 0 1
     (by decide) (by decide)⟩
